import Mathlib

/-!
Verification development for the heapbench benchmark harness
(src/heapbench.py).

Items in the Python program are 1-tuples `(n,)` of integers; the tuple
order on 1-tuples coincides with the order on the wrapped integer, so an
Item is embedded as a `Nat`.  The third-party heap libraries (heapdict,
heapq, pyheapq, binaryheap, fibonacci_heap_mod, libheap, fibheap, heapy,
bhpq) are external collaborators whose internals are out of scope; each
heap state is embedded as the bag (list) of values inserted and not yet
extracted, and extraction is modelled from the spec, section 4.2:
extract always returns the current minimum (or the configured extremal
choice) among inserted-but-not-yet-extracted items.  The source passes
prefer=max when constructing the bhpq adapter, so its configured
extremal choice is the maximum; every other adapter extracts the
minimum.
-/

namespace Heapbench

/-! ## Workload generator

The module-level driver builds the ascending workloads as
`[(n,) for n in range(N)]` (values `0, 1, ..., N-1`, embedded as
`List.range N`) and the descending workloads as
`[(n,) for n in range(N, 0, -1)]` (values `N, N-1, ..., 1`, embedded
as `descRange N`). -/

/-- Value sequence of `[(n,) for n in range(N, 0, -1)]`:
the list `[N, N-1, ..., 1]`. -/
def descRange : Nat → List Nat
  | 0 => []
  | n + 1 => (n + 1) :: descRange n

theorem descRange_length : ∀ n, (descRange n).length = n := by
  intro n
  induction n with
  | zero => rfl
  | succ k ih => simp [descRange, ih]

theorem mem_descRange {x : Nat} : ∀ {n}, x ∈ descRange n ↔ 1 ≤ x ∧ x ≤ n := by
  intro n
  induction n with
  | zero => simp [descRange]; omega
  | succ k ih =>
    simp only [descRange, List.mem_cons, ih]
    omega

/-- The descending workload is a permutation of `[1, ..., N]`, that is,
of the ascending values each shifted up by one. -/
theorem descRange_perm_map_range :
    ∀ n, (descRange n).Perm ((List.range n).map (· + 1)) := by
  intro n
  induction n with
  | zero => simp [descRange]
  | succ k ih =>
    rw [descRange, List.range_succ, List.map_append]
    refine List.Perm.trans (List.Perm.cons _ ih) ?_
    simpa using (List.perm_append_singleton (k + 1) ((List.range k).map (· + 1))).symm

/-- The descending workload is never a permutation of the ascending one
for a positive size: it contains `n` but the ascending workload does not. -/
theorem descRange_not_perm_range {n : Nat} (hn : 0 < n) :
    ¬ (descRange n).Perm (List.range n) := by
  intro h
  have hmem : n ∈ descRange n := by
    rw [mem_descRange]; omega
  have : n ∈ List.range n := h.mem_iff.mp hmem
  rw [List.mem_range] at this
  omega

/-! ## Heap model: extract-min and extract-max

Modelled from the spec: the heap libraries are external; per the
adapter contract (spec section 4.2) `extract` returns the current
minimum (for bhpq, which the source constructs with prefer=max, the
current maximum) among the inserted-but-not-yet-extracted items, and
removes it from the heap. -/

/-- Extract the minimum from a nonempty bag: returns the minimum value
and the remaining bag. -/
def extractMin : List Nat → Option (Nat × List Nat)
  | [] => none
  | x :: xs => some (xs.foldl min x, (x :: xs).erase (xs.foldl min x))

/-- Extract the maximum from a nonempty bag (bhpq is configured with
prefer=max in the source). -/
def extractMax : List Nat → Option (Nat × List Nat)
  | [] => none
  | x :: xs => some (xs.foldl max x, (x :: xs).erase (xs.foldl max x))

theorem foldl_min_mem : ∀ (xs : List Nat) (x : Nat), xs.foldl min x ∈ x :: xs := by
  intro xs
  induction xs with
  | nil => intro x; simp
  | cons y ys ih =>
    intro x
    have h := ih (min x y)
    simp only [List.foldl_cons]
    rcases List.mem_cons.mp h with h1 | h2
    · rw [h1]
      rcases Nat.le_total x y with hxy | hyx
      · rw [Nat.min_eq_left hxy]; exact List.mem_cons_self _ _
      · rw [Nat.min_eq_right hyx]
        exact List.mem_cons.mpr (Or.inr (List.mem_cons_self _ _))
    · exact List.mem_cons.mpr (Or.inr (List.mem_cons.mpr (Or.inr h2)))

theorem foldl_min_le : ∀ (xs : List Nat) (x a : Nat), a ∈ x :: xs → xs.foldl min x ≤ a := by
  intro xs
  induction xs with
  | nil =>
    intro x a ha
    simp at ha
    simp [ha]
  | cons y ys ih =>
    intro x a ha
    rcases List.mem_cons.mp ha with h1 | h2
    · subst h1
      have := ih (min a y) (min a y) (List.mem_cons_self _ _)
      calc ys.foldl min (min a y) ≤ min a y := this
        _ ≤ a := Nat.min_le_left _ _
    · rcases List.mem_cons.mp h2 with h3 | h4
      · subst h3
        have := ih (min x a) (min x a) (List.mem_cons_self _ _)
        calc ys.foldl min (min x a) ≤ min x a := this
          _ ≤ a := Nat.min_le_right _ _
      · exact ih (min x y) a (List.mem_cons.mpr (Or.inr h4))

theorem foldl_max_mem : ∀ (xs : List Nat) (x : Nat), xs.foldl max x ∈ x :: xs := by
  intro xs
  induction xs with
  | nil => intro x; simp
  | cons y ys ih =>
    intro x
    have h := ih (max x y)
    simp only [List.foldl_cons]
    rcases List.mem_cons.mp h with h1 | h2
    · rw [h1]
      rcases Nat.le_total x y with hxy | hyx
      · rw [Nat.max_eq_right hxy]
        exact List.mem_cons.mpr (Or.inr (List.mem_cons_self _ _))
      · rw [Nat.max_eq_left hyx]; exact List.mem_cons_self _ _
    · exact List.mem_cons.mpr (Or.inr (List.mem_cons.mpr (Or.inr h2)))

theorem foldl_max_ge : ∀ (xs : List Nat) (x a : Nat), a ∈ x :: xs → a ≤ xs.foldl max x := by
  intro xs
  induction xs with
  | nil =>
    intro x a ha
    simp at ha
    simp [ha]
  | cons y ys ih =>
    intro x a ha
    rcases List.mem_cons.mp ha with h1 | h2
    · subst h1
      have := ih (max a y) (max a y) (List.mem_cons_self _ _)
      calc a ≤ max a y := Nat.le_max_left _ _
        _ ≤ ys.foldl max (max a y) := this
    · rcases List.mem_cons.mp h2 with h3 | h4
      · subst h3
        have := ih (max x a) (max x a) (List.mem_cons_self _ _)
        calc a ≤ max x a := Nat.le_max_right _ _
          _ ≤ ys.foldl max (max x a) := this
      · exact ih (max x y) a (List.mem_cons.mpr (Or.inr h4))

theorem extractMin_none_iff {h : List Nat} : extractMin h = none ↔ h = [] := by
  cases h <;> simp [extractMin]

theorem extractMax_none_iff {h : List Nat} : extractMax h = none ↔ h = [] := by
  cases h <;> simp [extractMax]

theorem extractMin_spec {h : List Nat} {m : Nat} {rest : List Nat}
    (he : extractMin h = some (m, rest)) :
    m ∈ h ∧ (∀ a ∈ h, m ≤ a) ∧ h.Perm (m :: rest) := by
  cases h with
  | nil => simp [extractMin] at he
  | cons x xs =>
    simp only [extractMin, Option.some.injEq, Prod.mk.injEq] at he
    obtain ⟨hm, hrest⟩ := he
    subst hm
    subst hrest
    refine ⟨foldl_min_mem xs x, fun a ha => foldl_min_le xs x a ha, ?_⟩
    exact List.perm_cons_erase (foldl_min_mem xs x)

theorem extractMax_spec {h : List Nat} {m : Nat} {rest : List Nat}
    (he : extractMax h = some (m, rest)) :
    m ∈ h ∧ (∀ a ∈ h, a ≤ m) ∧ h.Perm (m :: rest) := by
  cases h with
  | nil => simp [extractMax] at he
  | cons x xs =>
    simp only [extractMax, Option.some.injEq, Prod.mk.injEq] at he
    obtain ⟨hm, hrest⟩ := he
    subst hm
    subst hrest
    refine ⟨foldl_max_mem xs x, fun a ha => foldl_max_ge xs x a ha, ?_⟩
    exact List.perm_cons_erase (foldl_max_mem xs x)

theorem extractMin_length {h : List Nat} {m : Nat} {rest : List Nat}
    (he : extractMin h = some (m, rest)) : rest.length + 1 = h.length := by
  have := (extractMin_spec he).2.2.length_eq
  simp at this
  omega

theorem extractMax_length {h : List Nat} {m : Nat} {rest : List Nat}
    (he : extractMax h = some (m, rest)) : rest.length + 1 = h.length := by
  have := (extractMax_spec he).2.2.length_eq
  simp at this
  omega

/-! ## Draining a heap

Every removal runner in the source drains with a loop of the shape
`while not empty: pop one item` (spelled `while len(h) > 0`, `while h`,
`while h.num_nodes > 0`, `while not h.empty()` or `while h.size() > 0`
depending on the adapter; each test reads emptiness of the bag).  The
loop is rendered with a fuel argument set to the heap size, which is
provably enough: the final heap component is always empty. -/

/-- Emptiness check used by every drain loop. -/
def is_empty (h : List Nat) : Bool := h.isEmpty

/-- Fuel-bounded drain loop for a min-extracting adapter: returns the
sequence of extracted values and the remaining heap. -/
def drainMinFuel : Nat → List Nat → List Nat × List Nat
  | 0, h => ([], h)
  | fuel + 1, h =>
    match extractMin h with
    | none => ([], h)
    | some (m, rest) =>
      let p := drainMinFuel fuel rest
      (m :: p.1, p.2)

/-- Drain a min-extracting adapter to empty (the fuel `h.length` is
exactly the number of iterations the Python while-loop performs). -/
def drainMin (h : List Nat) : List Nat × List Nat := drainMinFuel h.length h

/-- Fuel-bounded drain loop for the max-extracting bhpq adapter. -/
def drainMaxFuel : Nat → List Nat → List Nat × List Nat
  | 0, h => ([], h)
  | fuel + 1, h =>
    match extractMax h with
    | none => ([], h)
    | some (m, rest) =>
      let p := drainMaxFuel fuel rest
      (m :: p.1, p.2)

/-- Drain the max-extracting bhpq adapter to empty. -/
def drainMax (h : List Nat) : List Nat × List Nat := drainMaxFuel h.length h

theorem drainMinFuel_spec : ∀ (fuel : Nat) (h : List Nat), h.length ≤ fuel →
    (drainMinFuel fuel h).1.Perm h ∧ (drainMinFuel fuel h).2 = [] ∧
      List.Sorted (· ≤ ·) (drainMinFuel fuel h).1 := by
  intro fuel
  induction fuel with
  | zero =>
    intro h hlen
    have : h = [] := List.length_eq_zero.mp (Nat.le_zero.mp hlen)
    subst this
    exact ⟨List.Perm.refl _, rfl, List.sorted_nil⟩
  | succ k ih =>
    intro h hlen
    match he : extractMin h with
    | none =>
      have : h = [] := extractMin_none_iff.mp he
      subst this
      simp [drainMinFuel, extractMin]
    | some (m, rest) =>
      obtain ⟨hmem, hle, hperm⟩ := extractMin_spec he
      have hlen' : rest.length ≤ k := by
        have := extractMin_length he
        omega
      obtain ⟨ihp, ihf, ihs⟩ := ih rest hlen'
      simp only [drainMinFuel, he]
      refine ⟨?_, ihf, ?_⟩
      · exact (List.Perm.cons m ihp).trans hperm.symm
      · rw [List.sorted_cons]
        refine ⟨?_, ihs⟩
        intro b hb
        have hbrest : b ∈ rest := ihp.mem_iff.mp hb
        have hbh : b ∈ h := hperm.mem_iff.mpr (List.mem_cons.mpr (Or.inr hbrest))
        exact hle b hbh

theorem drainMaxFuel_spec : ∀ (fuel : Nat) (h : List Nat), h.length ≤ fuel →
    (drainMaxFuel fuel h).1.Perm h ∧ (drainMaxFuel fuel h).2 = [] ∧
      List.Sorted (· ≥ ·) (drainMaxFuel fuel h).1 := by
  intro fuel
  induction fuel with
  | zero =>
    intro h hlen
    have : h = [] := List.length_eq_zero.mp (Nat.le_zero.mp hlen)
    subst this
    exact ⟨List.Perm.refl _, rfl, List.sorted_nil⟩
  | succ k ih =>
    intro h hlen
    match he : extractMax h with
    | none =>
      have : h = [] := extractMax_none_iff.mp he
      subst this
      simp [drainMaxFuel, extractMax]
    | some (m, rest) =>
      obtain ⟨hmem, hge, hperm⟩ := extractMax_spec he
      have hlen' : rest.length ≤ k := by
        have := extractMax_length he
        omega
      obtain ⟨ihp, ihf, ihs⟩ := ih rest hlen'
      simp only [drainMaxFuel, he]
      refine ⟨?_, ihf, ?_⟩
      · exact (List.Perm.cons m ihp).trans hperm.symm
      · rw [List.sorted_cons]
        refine ⟨?_, ihs⟩
        intro b hb
        have hbrest : b ∈ rest := ihp.mem_iff.mp hb
        have hbh : b ∈ h := hperm.mem_iff.mpr (List.mem_cons.mpr (Or.inr hbrest))
        exact hge b hbh

/-- Draining a min heap yields a permutation of its contents, leaves it
empty, and the extracted sequence is non-decreasing. -/
theorem drainMin_spec (h : List Nat) :
    (drainMin h).1.Perm h ∧ (drainMin h).2 = [] ∧
      List.Sorted (· ≤ ·) (drainMin h).1 :=
  drainMinFuel_spec h.length h (Nat.le_refl _)

/-- Draining the max-configured bhpq heap yields a permutation of its
contents, leaves it empty, and the extracted sequence is non-increasing. -/
theorem drainMax_spec (h : List Nat) :
    (drainMax h).1.Perm h ∧ (drainMax h).2 = [] ∧
      List.Sorted (· ≥ ·) (drainMax h).1 :=
  drainMaxFuel_spec h.length h (Nat.le_refl _)

/-! ## The per-adapter insertion functions

Source lines 65 to 246.  Each function constructs a fresh heap and
inserts every item in sequence order.  At the bag level every push adds
the item once, except heapdict: `h[item] = item[0]` is a dict
assignment keyed by the item, so pushing an item already present only
reassigns its (identical) priority and leaves the bag unchanged.
heapy stores the pair `(item[0], item)` and fibonacci_heap_mod stores
the item with priority `item[0]`; since the priority equals the item
value, the bag of values fully determines those heaps and the pair
component is dropped in the embedding. -/

/-- insert the items into a heapdict object (`h[item] = item[0]`). -/
def insert_heapdict (items : List Nat) : List Nat :=
  items.foldl (fun h item => if item ∈ h then h else h ++ [item]) []

/-- insert the items into a list using the heapq module. -/
def insert_heapq (items : List Nat) : List Nat :=
  items.foldl (fun h item => h ++ [item]) []

/-- insert the items into a list using a Python-only version of heapq. -/
def insert_pyheapq (items : List Nat) : List Nat :=
  items.foldl (fun h item => h ++ [item]) []

/-- insert the items into a binaryheap object (`binaryheap.new_min_heap()`). -/
def insert_binaryheap (items : List Nat) : List Nat :=
  items.foldl (fun h item => h ++ [item]) []

/-- insert the items into a Fibonacci heap object
(`h.enqueue(item, item[0])`). -/
def insert_fibonacci_heap_mod (items : List Nat) : List Nat :=
  items.foldl (fun h item => h ++ [item]) []

/-- insert the items into a libheap object. -/
def insert_libheap (items : List Nat) : List Nat :=
  items.foldl (fun h item => h ++ [item]) []

/-- insert the items into a fibheap object (`fibheap.fheappush`). -/
def insert_fibheap (items : List Nat) : List Nat :=
  items.foldl (fun h item => h ++ [item]) []

/-- insert the items into a bhpq
(`bhpq.BinaryHeapPriorityQueue(prefer=max)`). -/
def insert_bhpq (items : List Nat) : List Nat :=
  items.foldl (fun h item => h ++ [item]) []

/-- insert the items into a heapy object (`h.push((item[0], item))`). -/
def insert_heapy (items : List Nat) : List Nat :=
  items.foldl (fun h item => h ++ [item]) []

theorem foldl_push_eq : ∀ (l acc : List Nat),
    l.foldl (fun h item => h ++ [item]) acc = acc ++ l := by
  intro l
  induction l with
  | nil => intro acc; simp
  | cons x xs ih =>
    intro acc
    simp only [List.foldl_cons]
    rw [ih (acc ++ [x])]
    simp

theorem insert_heapq_eq (items : List Nat) : insert_heapq items = items := by
  simpa using foldl_push_eq items []

theorem insert_pyheapq_eq (items : List Nat) : insert_pyheapq items = items := by
  simpa using foldl_push_eq items []

theorem insert_binaryheap_eq (items : List Nat) : insert_binaryheap items = items := by
  simpa using foldl_push_eq items []

theorem insert_libheap_eq (items : List Nat) : insert_libheap items = items := by
  simpa using foldl_push_eq items []

theorem insert_fibonacci_heap_mod_eq (items : List Nat) : insert_fibonacci_heap_mod items = items := by
  simpa using foldl_push_eq items []

theorem insert_fibheap_eq (items : List Nat) : insert_fibheap items = items := by
  simpa using foldl_push_eq items []

theorem insert_heapy_eq (items : List Nat) : insert_heapy items = items := by
  simpa using foldl_push_eq items []

theorem insert_bhpq_eq (items : List Nat) : insert_bhpq items = items := by
  simpa using foldl_push_eq items []

theorem foldl_dict_push_eq : ∀ (l acc : List Nat), (acc ++ l).Nodup →
    l.foldl (fun h item => if item ∈ h then h else h ++ [item]) acc = acc ++ l := by
  intro l
  induction l with
  | nil => intro acc _; simp
  | cons x xs ih =>
    intro acc hnd
    have hx : x ∉ acc := by
      rcases List.nodup_append.mp hnd with ⟨_, _, hdisj⟩
      intro hmem
      exact hdisj hmem (List.mem_cons_self _ _)
    have hrw : acc ++ x :: xs = (acc ++ [x]) ++ xs := by simp
    simp only [List.foldl_cons, if_neg hx]
    rw [ih (acc ++ [x]) (by rw [← hrw]; exact hnd)]
    simp

theorem insert_heapdict_eq {items : List Nat} (hnd : items.Nodup) :
    insert_heapdict items = items := by
  simpa using foldl_dict_push_eq items [] (by simpa using hnd)

/-! ## The removal runners and the timing model

Source lines 73 to 260: every `bench_remove_*` function has the shape

  range_it = range(loops); time_total = 0
  for loops in range_it:
      h = insert_X(items)          (untimed: before the first clock read)
      t0 = pyperf.perf_counter()
      while not empty: pop one     (the timed drain)
      t1 = pyperf.perf_counter()
      time_total += t1 - t0
  return time_total

(the loop variable shadows `loops`, which is harmless because
`range_it` was materialized first).  `pyperf.perf_counter` is external;
it is embedded as reading a virtual clock that advances by `insCost`
per executed insert operation and by `extCost` per executed extract
operation, for arbitrary nonnegative costs. -/

/-- Clocked drain loop: pops until empty, advancing the clock by
`extCost` per extract; returns the clock value after the drain. -/
def drainMinClockedFuel : Nat → Nat → List Nat → Nat → Nat
  | 0, _, _, clock => clock
  | fuel + 1, extCost, h, clock =>
    match extractMin h with
    | none => clock
    | some (_, rest) => drainMinClockedFuel fuel extCost rest (clock + extCost)

/-- Clocked drain to empty for min-extracting adapters. -/
def drainMinClocked (extCost : Nat) (h : List Nat) (clock : Nat) : Nat :=
  drainMinClockedFuel h.length extCost h clock

/-- Clocked drain loop for the max-extracting bhpq adapter. -/
def drainMaxClockedFuel : Nat → Nat → List Nat → Nat → Nat
  | 0, _, _, clock => clock
  | fuel + 1, extCost, h, clock =>
    match extractMax h with
    | none => clock
    | some (_, rest) => drainMaxClockedFuel fuel extCost rest (clock + extCost)

/-- Clocked drain to empty for the bhpq adapter. -/
def drainMaxClocked (extCost : Nat) (h : List Nat) (clock : Nat) : Nat :=
  drainMaxClockedFuel h.length extCost h clock

theorem drainMinClockedFuel_eq : ∀ (fuel : Nat) (extCost : Nat) (h : List Nat)
    (clock : Nat), h.length ≤ fuel →
    drainMinClockedFuel fuel extCost h clock = clock + extCost * h.length := by
  intro fuel
  induction fuel with
  | zero =>
    intro extCost h clock hlen
    have : h = [] := List.length_eq_zero.mp (Nat.le_zero.mp hlen)
    subst this
    simp [drainMinClockedFuel]
  | succ k ih =>
    intro extCost h clock hlen
    match he : extractMin h with
    | none =>
      have : h = [] := extractMin_none_iff.mp he
      subst this
      simp [drainMinClockedFuel, extractMin]
    | some (m, rest) =>
      have hl := extractMin_length he
      simp only [drainMinClockedFuel, he]
      rw [ih extCost rest (clock + extCost) (by omega)]
      have : h.length = rest.length + 1 := by omega
      rw [this, Nat.mul_succ]
      ring

theorem drainMaxClockedFuel_eq : ∀ (fuel : Nat) (extCost : Nat) (h : List Nat)
    (clock : Nat), h.length ≤ fuel →
    drainMaxClockedFuel fuel extCost h clock = clock + extCost * h.length := by
  intro fuel
  induction fuel with
  | zero =>
    intro extCost h clock hlen
    have : h = [] := List.length_eq_zero.mp (Nat.le_zero.mp hlen)
    subst this
    simp [drainMaxClockedFuel]
  | succ k ih =>
    intro extCost h clock hlen
    match he : extractMax h with
    | none =>
      have : h = [] := extractMax_none_iff.mp he
      subst this
      simp [drainMaxClockedFuel, extractMax]
    | some (m, rest) =>
      have hl := extractMax_length he
      simp only [drainMaxClockedFuel, he]
      rw [ih extCost rest (clock + extCost) (by omega)]
      have : h.length = rest.length + 1 := by omega
      rw [this, Nat.mul_succ]
      ring

theorem drainMinClocked_eq (extCost : Nat) (h : List Nat) (clock : Nat) :
    drainMinClocked extCost h clock = clock + extCost * h.length :=
  drainMinClockedFuel_eq h.length extCost h clock (Nat.le_refl _)

theorem drainMaxClocked_eq (extCost : Nat) (h : List Nat) (clock : Nat) :
    drainMaxClocked extCost h clock = clock + extCost * h.length :=
  drainMaxClockedFuel_eq h.length extCost h clock (Nat.le_refl _)

/-- The common body of every `bench_remove_*` function: `loops`
repetitions of: build the heap (clock advances, untimed), read `t0`,
drain (clock advances), read `t1`, accumulate `t1 - t0`. -/
def benchCore (insertFn : List Nat → List Nat)
    (drainC : Nat → List Nat → Nat → Nat)
    (insCost extCost : Nat) (items : List Nat) : Nat → Nat → Nat → Nat
  | 0, _clock, total => total
  | n + 1, clock, total =>
    let h := insertFn items
    let clockBuilt := clock + insCost * items.length
    let t0 := clockBuilt
    let t1 := drainC extCost h t0
    benchCore insertFn drainC insCost extCost items n t1 (total + (t1 - t0))

/-- insert the items into a heapdict object, then time removing them. -/
def bench_remove_heapdict (insCost extCost loops : Nat) (items : List Nat) : Nat :=
  benchCore insert_heapdict drainMinClocked insCost extCost items loops 0 0

/-- insert the items into a heap list, then time removing them. -/
def bench_remove_heapq (insCost extCost loops : Nat) (items : List Nat) : Nat :=
  benchCore insert_heapq drainMinClocked insCost extCost items loops 0 0

/-- insert the items into a heap list with Python-only version of heapq,
then time removing them. -/
def bench_remove_pyheapq (insCost extCost loops : Nat) (items : List Nat) : Nat :=
  benchCore insert_pyheapq drainMinClocked insCost extCost items loops 0 0

/-- insert the items into a binaryheap, then time removing them. -/
def bench_remove_binaryheap (insCost extCost loops : Nat) (items : List Nat) : Nat :=
  benchCore insert_binaryheap drainMinClocked insCost extCost items loops 0 0

/-- insert the items into a Fibonacci heap, then time removing them. -/
def bench_remove_fibonacci_heap_mod (insCost extCost loops : Nat) (items : List Nat) : Nat :=
  benchCore insert_fibonacci_heap_mod drainMinClocked insCost extCost items loops 0 0

/-- insert the items into a libheap object, then time removing them. -/
def bench_remove_libheap (insCost extCost loops : Nat) (items : List Nat) : Nat :=
  benchCore insert_libheap drainMinClocked insCost extCost items loops 0 0

/-- insert the items into a fibheap object, then time removing them. -/
def bench_remove_fibheap (insCost extCost loops : Nat) (items : List Nat) : Nat :=
  benchCore insert_fibheap drainMinClocked insCost extCost items loops 0 0

/-- insert the items into a bhpq, then time removing them (bhpq pops
its most-preferred element, configured as the maximum). -/
def bench_remove_bhpq (insCost extCost loops : Nat) (items : List Nat) : Nat :=
  benchCore insert_bhpq drainMaxClocked insCost extCost items loops 0 0

/-- insert the items into a heapy object, then time removing them. -/
def bench_remove_heapy (insCost extCost loops : Nat) (items : List Nat) : Nat :=
  benchCore insert_heapy drainMinClocked insCost extCost items loops 0 0

theorem benchCore_eq (insertFn : List Nat → List Nat)
    (drainC : Nat → List Nat → Nat → Nat) (insCost extCost : Nat)
    (items : List Nat)
    (hD : ∀ (h : List Nat) (c : Nat), drainC extCost h c = c + extCost * h.length) :
    ∀ (n clock total : Nat),
      benchCore insertFn drainC insCost extCost items n clock total
        = total + n * (extCost * (insertFn items).length) := by
  intro n
  induction n with
  | zero => intro clock total; simp [benchCore]
  | succ k ih =>
    intro clock total
    simp only [benchCore, hD]
    rw [ih]
    have hsub : clock + insCost * items.length + extCost * (insertFn items).length
        - (clock + insCost * items.length) = extCost * (insertFn items).length := by
      omega
    rw [hsub, Nat.succ_mul]
    ring

/-! ## The timing protocol as the spec describes it

Modelled from the spec: section 4.4 says the inner-repetition
multiplier `inner_loops` is folded into the single timed unit, so each
timed region performs the drain `inner_loops` times, and the caller
divides the accumulated total by `loops * inner_loops`.  This is the
comparison definition for claim C3; the source functions above drain
exactly once per repetition. -/

/-- Modelled from the spec: one repetition builds the heap untimed,
then the timed unit performs the drain `innerLoops` times, so the timed
region contributes `innerLoops` times the cost of one drain. -/
def benchSpecCore (insertFn : List Nat → List Nat)
    (drainC : Nat → List Nat → Nat → Nat)
    (insCost extCost innerLoops : Nat) (items : List Nat) : Nat → Nat → Nat → Nat
  | 0, _clock, total => total
  | n + 1, clock, total =>
    let h := insertFn items
    let clockBuilt := clock + insCost * items.length
    let t0 := clockBuilt
    let oneDrain := drainC extCost h 0
    let t1 := t0 + innerLoops * oneDrain
    benchSpecCore insertFn drainC insCost extCost innerLoops items n t1 (total + (t1 - t0))

/-- Modelled from the spec: the removal protocol for the heapq adapter
with the inner-loop multiplier actually folded into the timed unit. -/
def bench_remove_heapq_specProtocol (insCost extCost innerLoops loops : Nat)
    (items : List Nat) : Nat :=
  benchSpecCore insert_heapq drainMinClocked insCost extCost innerLoops items loops 0 0

/-! ## Adapter registry

Source lines 42 to 58 and 266 to 307.  The eight module-level imports
of heap libraries are unconditional: any failure there propagates and
aborts the suite.  Only the bhpq module is imported inside a guard, and
the guard catches only SyntaxError (have_bhpq is set to False in that
case); a failure to load bhpq for any other reason also propagates.
`ImportOutcome.parseFail` stands for a SyntaxError raised while loading
the module and `ImportOutcome.loadFail` for any other failure to load
it (for example the module being absent). -/

inductive AdapterKind
  | binaryheap
  | fibonacci_heap_mod
  | heapdict
  | heapq
  | pyheapq
  | libheap
  | fibheap
  | heapy
  | bhpq
deriving DecidableEq

inductive ImportOutcome
  | ok
  | parseFail
  | loadFail
deriving DecidableEq

/-- The eight unconditional heap-library imports, in source order. -/
def requiredImports : List AdapterKind :=
  [.binaryheap, .fibonacci_heap_mod, .heapdict, .heapq, .pyheapq,
   .libheap, .fibheap, .heapy]

/-- First import in the list that does not load cleanly, if any
(module imports execute in order and the first raised error aborts). -/
def firstFailure : List AdapterKind → (AdapterKind → ImportOutcome) → Option AdapterKind
  | [], _ => none
  | k :: ks, env => if env k = .ok then firstFailure ks env else some k

/-- One entry of the TESTS table (source lines 266 to 307). -/
structure HBTest where
  nameInsert : String
  insertFn : List Nat → List Nat
  nameRemove : String
  removeFn : Nat → Nat → Nat → List Nat → Nat

/-- The TESTS table: eight unconditional entries, plus the bhpq entry
when have_bhpq is true. -/
def TESTS (have_bhpq : Bool) : List HBTest :=
  [⟨"heapdict[]", insert_heapdict, "heapdict.popitem()", bench_remove_heapdict⟩,
   ⟨"heapq.heappush()", insert_heapq, "heapq.heappop()", bench_remove_heapq⟩,
   ⟨"pyheapq.heappush()", insert_pyheapq, "pyheapq.heappop()", bench_remove_pyheapq⟩,
   ⟨"binaryheap.add()", insert_binaryheap, "binaryheap.extract_one()", bench_remove_binaryheap⟩,
   ⟨"libheap.insert()", insert_libheap, "libheap.pop()", bench_remove_libheap⟩,
   ⟨"fibonacci_heap_mod.enqueue()", insert_fibonacci_heap_mod,
    "fibonacci_heap_mod.dequeue_min()", bench_remove_fibonacci_heap_mod⟩,
   ⟨"fibheap.fheappush()", insert_fibheap, "fibheap.fheappop()", bench_remove_fibheap⟩,
   ⟨"heapy.push()", insert_heapy, "heapy.pop()", bench_remove_heapy⟩]
  ++ (if have_bhpq then
        [⟨"bhpq.add()", insert_bhpq, "bhpq.pop()", bench_remove_bhpq⟩]
      else [])

/-- Module initialization: run the eight unconditional imports in
order (the first failure aborts the suite with that adapter named),
then the guarded bhpq import, and materialize the TESTS table. -/
def moduleInit (env : AdapterKind → ImportOutcome) : Except AdapterKind (List HBTest) :=
  match firstFailure requiredImports env with
  | some k => .error k
  | none =>
    match env .bhpq with
    | .ok => .ok (TESTS true)
    | .parseFail => .ok (TESTS false)
    | .loadFail => .error .bhpq

theorem firstFailure_eq_none {env : AdapterKind → ImportOutcome} :
    ∀ l : List AdapterKind, (∀ k ∈ l, env k = .ok) → firstFailure l env = none := by
  intro l
  induction l with
  | nil => intro _; rfl
  | cons k ks ih =>
    intro hall
    have hk : env k = .ok := hall k (List.mem_cons_self _ _)
    simp only [firstFailure, if_pos hk]
    exact ih fun j hj => hall j (List.mem_cons.mpr (Or.inr hj))

/-! ## Suite driver

Source lines 313 to 361.  For each workload the driver loops over
TESTS and registers one case with the pyperf runner; registration is
embedded as the record of the arguments handed to the runner: the case
name (an f-string built from the test entry name), the items list, and
for `bench_time_func` the declared inner_loops multiplier.  The random
workloads are produced by `random.shuffle(items)` mutating the current
items list in place, which at that point is the descending list; the
shuffle is external, so its outcome is an arbitrary permutation of the
descending values, fixed once per size. -/

/-- Record of one registration with the pyperf runner. -/
structure BenchCase where
  name : String
  wl : List Nat
  innerLoops : Option Nat
deriving DecidableEq

/-- Insertion cases, ascending, N=1K (source lines 316 to 319). -/
def ascCases1K (hb : Bool) : List BenchCase :=
  (TESTS hb).map fun t => ⟨t.nameInsert ++ " ascending, N=1K", List.range 1000, none⟩

/-- Insertion cases, descending, N=1K (source lines 322 to 325). -/
def descCases1K (hb : Bool) : List BenchCase :=
  (TESTS hb).map fun t => ⟨t.nameInsert ++ " descending, N=1K", descRange 1000, none⟩

/-- Insertion cases, random order, N=1K (source lines 328 to 331): the
single shuffled arrangement `r1` is reused for every test. -/
def randCases1K (hb : Bool) (r1 : List Nat) : List BenchCase :=
  (TESTS hb).map fun t => ⟨t.nameInsert ++ " random order, N=1K", r1, none⟩

/-- Insertion cases, ascending, N=1M (source lines 334 to 337). -/
def ascCases1M (hb : Bool) : List BenchCase :=
  (TESTS hb).map fun t =>
    ⟨t.nameInsert ++ " ascending order, N=1M", List.range 1000000, none⟩

/-- Insertion cases, descending, N=1M (source lines 340 to 343). -/
def descCases1M (hb : Bool) : List BenchCase :=
  (TESTS hb).map fun t =>
    ⟨t.nameInsert ++ " descending order, N=1M", descRange 1000000, none⟩

/-- Insertion cases, random order, N=1M (source lines 346 to 349). -/
def randCases1M (hb : Bool) (r2 : List Nat) : List BenchCase :=
  (TESTS hb).map fun t => ⟨t.nameInsert ++ " random order, N=1M", r2, none⟩

/-- Removal cases, N=1K (source lines 352 to 355): registered with
`bench_time_func` and `inner_loops=10`; the workload is a fresh
ascending list and the name carries no order pattern. -/
def removeCases1K (hb : Bool) : List BenchCase :=
  (TESTS hb).map fun t => ⟨t.nameRemove ++ ", N=1K", List.range 1000, some 10⟩

/-- Removal cases, N=1M (source lines 358 to 361). -/
def removeCases1M (hb : Bool) : List BenchCase :=
  (TESTS hb).map fun t => ⟨t.nameRemove ++ ", N=1M", List.range 1000000, some 10⟩

/-- All registrations performed by the module, in execution order. -/
def suiteCases (hb : Bool) (r1 r2 : List Nat) : List BenchCase :=
  ascCases1K hb ++ descCases1K hb ++ randCases1K hb r1 ++
    ascCases1M hb ++ descCases1M hb ++ randCases1M hb r2 ++
    removeCases1K hb ++ removeCases1M hb

/-- Does `pat` occur at the head of `s`? -/
def chunkAt : List Char → List Char → Bool
  | _, [] => true
  | [], _ :: _ => false
  | c :: cs, p :: ps => c == p && chunkAt cs ps

/-- Does `pat` occur anywhere in `s`? -/
def hasSubAux : List Char → List Char → Bool
  | [], pat => chunkAt [] pat
  | c :: cs, pat => chunkAt (c :: cs) pat || hasSubAux cs pat

/-- Substring test on strings, used to state which tags appear in a
case name. -/
def hasSub (s pat : String) : Bool := hasSubAux s.toList pat.toList

/-- Does the case name mention one of the three order patterns? -/
def mentionsOrder (s : String) : Bool :=
  hasSub s "ascending" || hasSub s "descending" || hasSub s "random"

/-! ## Object-state rendering for the frame property

For the implicit claim that the insert functions and removal runners
leave the caller items list unchanged, the two Python list objects in
scope (the argument `items` and the function-local heap `h`) are made
explicit state: every statement of each function body is a state
transformer, and a statement that wrote to the items object would show
up as a change to the `itemsObj` component.  The bodies only ever read
`itemsObj` (the `for item in items` iteration) and write the
function-local heap object. -/

structure PyState where
  itemsObj : List Nat
  hObj : List Nat

/-- The push statement of the append-style inserts: writes only the
heap object. -/
def pushBagSt (s : PyState) (x : Nat) : PyState := { s with hObj := s.hObj ++ [x] }

/-- The heapdict assignment `h[item] = item[0]`: writes only the heap
object (and leaves it unchanged when the key is already present). -/
def pushDictSt (s : PyState) (x : Nat) : PyState :=
  if x ∈ s.hObj then s else { s with hObj := s.hObj ++ [x] }

/-- One pop statement of a min drain loop: writes only the heap object. -/
def popMinSt (s : PyState) : PyState :=
  match extractMin s.hObj with
  | none => s
  | some (_, rest) => { s with hObj := rest }

/-- One pop statement of the bhpq drain loop. -/
def popMaxSt (s : PyState) : PyState :=
  match extractMax s.hObj with
  | none => s
  | some (_, rest) => { s with hObj := rest }

def insert_heapdict_st (s : PyState) : PyState :=
  s.itemsObj.foldl pushDictSt { s with hObj := [] }

def insert_heapq_st (s : PyState) : PyState :=
  s.itemsObj.foldl pushBagSt { s with hObj := [] }

def insert_pyheapq_st (s : PyState) : PyState :=
  s.itemsObj.foldl pushBagSt { s with hObj := [] }

def insert_binaryheap_st (s : PyState) : PyState :=
  s.itemsObj.foldl pushBagSt { s with hObj := [] }

def insert_fibonacci_heap_mod_st (s : PyState) : PyState :=
  s.itemsObj.foldl pushBagSt { s with hObj := [] }

def insert_libheap_st (s : PyState) : PyState :=
  s.itemsObj.foldl pushBagSt { s with hObj := [] }

def insert_fibheap_st (s : PyState) : PyState :=
  s.itemsObj.foldl pushBagSt { s with hObj := [] }

def insert_bhpq_st (s : PyState) : PyState :=
  s.itemsObj.foldl pushBagSt { s with hObj := [] }

def insert_heapy_st (s : PyState) : PyState :=
  s.itemsObj.foldl pushBagSt { s with hObj := [] }

/-- The drain loop of a min removal runner, on object state. -/
def drainMinStFuel : Nat → PyState → PyState
  | 0, s => s
  | fuel + 1, s =>
    match extractMin s.hObj with
    | none => s
    | some (_, rest) => drainMinStFuel fuel { s with hObj := rest }

def drainMinSt (s : PyState) : PyState := drainMinStFuel s.hObj.length s

/-- The drain loop of the bhpq removal runner, on object state. -/
def drainMaxStFuel : Nat → PyState → PyState
  | 0, s => s
  | fuel + 1, s =>
    match extractMax s.hObj with
    | none => s
    | some (_, rest) => drainMaxStFuel fuel { s with hObj := rest }

def drainMaxSt (s : PyState) : PyState := drainMaxStFuel s.hObj.length s

/-- The loop body shared by the removal runners, on object state:
build the heap, then drain it (timing reads do not touch objects). -/
def benchStCore (insertSt : PyState → PyState) (drainSt : PyState → PyState) :
    Nat → PyState → PyState
  | 0, s => s
  | n + 1, s => benchStCore insertSt drainSt n (drainSt (insertSt s))

def bench_remove_heapdict_st (loops : Nat) (s : PyState) : PyState :=
  benchStCore insert_heapdict_st drainMinSt loops s

def bench_remove_heapq_st (loops : Nat) (s : PyState) : PyState :=
  benchStCore insert_heapq_st drainMinSt loops s

def bench_remove_pyheapq_st (loops : Nat) (s : PyState) : PyState :=
  benchStCore insert_pyheapq_st drainMinSt loops s

def bench_remove_binaryheap_st (loops : Nat) (s : PyState) : PyState :=
  benchStCore insert_binaryheap_st drainMinSt loops s

def bench_remove_fibonacci_heap_mod_st (loops : Nat) (s : PyState) : PyState :=
  benchStCore insert_fibonacci_heap_mod_st drainMinSt loops s

def bench_remove_libheap_st (loops : Nat) (s : PyState) : PyState :=
  benchStCore insert_libheap_st drainMinSt loops s

def bench_remove_fibheap_st (loops : Nat) (s : PyState) : PyState :=
  benchStCore insert_fibheap_st drainMinSt loops s

def bench_remove_bhpq_st (loops : Nat) (s : PyState) : PyState :=
  benchStCore insert_bhpq_st drainMaxSt loops s

def bench_remove_heapy_st (loops : Nat) (s : PyState) : PyState :=
  benchStCore insert_heapy_st drainMinSt loops s

theorem foldl_preserves_itemsObj (f : PyState → Nat → PyState)
    (hf : ∀ s x, (f s x).itemsObj = s.itemsObj) :
    ∀ (l : List Nat) (s : PyState), (l.foldl f s).itemsObj = s.itemsObj := by
  intro l
  induction l with
  | nil => intro s; rfl
  | cons x xs ih =>
    intro s
    simp only [List.foldl_cons]
    rw [ih (f s x), hf s x]

theorem pushBagSt_itemsObj (s : PyState) (x : Nat) :
    (pushBagSt s x).itemsObj = s.itemsObj := rfl

theorem pushDictSt_itemsObj (s : PyState) (x : Nat) :
    (pushDictSt s x).itemsObj = s.itemsObj := by
  unfold pushDictSt
  split <;> rfl

theorem drainMinStFuel_itemsObj :
    ∀ (fuel : Nat) (s : PyState), (drainMinStFuel fuel s).itemsObj = s.itemsObj := by
  intro fuel
  induction fuel with
  | zero => intro s; rfl
  | succ k ih =>
    intro s
    unfold drainMinStFuel
    match he : extractMin s.hObj with
    | none => rfl
    | some (m, rest) => rw [ih]

theorem drainMaxStFuel_itemsObj :
    ∀ (fuel : Nat) (s : PyState), (drainMaxStFuel fuel s).itemsObj = s.itemsObj := by
  intro fuel
  induction fuel with
  | zero => intro s; rfl
  | succ k ih =>
    intro s
    unfold drainMaxStFuel
    match he : extractMax s.hObj with
    | none => rfl
    | some (m, rest) => rw [ih]

theorem benchStCore_itemsObj (insertSt drainSt : PyState → PyState)
    (hi : ∀ s, (insertSt s).itemsObj = s.itemsObj)
    (hd : ∀ s, (drainSt s).itemsObj = s.itemsObj) :
    ∀ (n : Nat) (s : PyState), (benchStCore insertSt drainSt n s).itemsObj = s.itemsObj := by
  intro n
  induction n with
  | zero => intro s; rfl
  | succ k ih =>
    intro s
    unfold benchStCore
    rw [ih, hd, hi]

theorem insertSt_bag_itemsObj (s : PyState) :
    (s.itemsObj.foldl pushBagSt { s with hObj := [] }).itemsObj = s.itemsObj :=
  foldl_preserves_itemsObj pushBagSt pushBagSt_itemsObj s.itemsObj _

theorem insertSt_dict_itemsObj (s : PyState) :
    (s.itemsObj.foldl pushDictSt { s with hObj := [] }).itemsObj = s.itemsObj :=
  foldl_preserves_itemsObj pushDictSt pushDictSt_itemsObj s.itemsObj _

theorem drainMinSt_itemsObj (s : PyState) : (drainMinSt s).itemsObj = s.itemsObj :=
  drainMinStFuel_itemsObj s.hObj.length s

theorem drainMaxSt_itemsObj (s : PyState) : (drainMaxSt s).itemsObj = s.itemsObj :=
  drainMaxStFuel_itemsObj s.hObj.length s

/-! ## Claim theorems -/

theorem minDrain_contract (h : List Nat) :
    (drainMin h).1.length = h.length ∧ is_empty (drainMin h).2 = true ∧
      List.Sorted (· ≤ ·) (drainMin h).1 := by
  obtain ⟨hp, hf, hs⟩ := drainMin_spec h
  exact ⟨hp.length_eq, by rw [hf]; rfl, hs⟩

theorem maxDrain_contract (h : List Nat) :
    (drainMax h).1.length = h.length ∧ is_empty (drainMax h).2 = true ∧
      List.Sorted (· ≥ ·) (drainMax h).1 := by
  obtain ⟨hp, hf, hs⟩ := drainMax_spec h
  exact ⟨hp.length_eq, by rw [hf]; rfl, hs⟩

/-- C1 (amended): for every workload of pairwise-distinct items and
every adapter registered in TESTS, inserting all items and then
draining until the adapter reports empty yields exactly as many results
as items and leaves the heap empty, regardless of insertion order; the
extracted sequence is non-decreasing for the eight min-extracting
adapters, while for bhpq, which the source constructs with prefer=max,
it is non-increasing. -/
theorem C1_adapter_drain_contract :
    ∀ items : List Nat, items.Nodup →
      ((drainMin (insert_heapdict items)).1.length = items.length ∧
        is_empty (drainMin (insert_heapdict items)).2 = true ∧
        List.Sorted (· ≤ ·) (drainMin (insert_heapdict items)).1) ∧
      ((drainMin (insert_heapq items)).1.length = items.length ∧
        is_empty (drainMin (insert_heapq items)).2 = true ∧
        List.Sorted (· ≤ ·) (drainMin (insert_heapq items)).1) ∧
      ((drainMin (insert_pyheapq items)).1.length = items.length ∧
        is_empty (drainMin (insert_pyheapq items)).2 = true ∧
        List.Sorted (· ≤ ·) (drainMin (insert_pyheapq items)).1) ∧
      ((drainMin (insert_binaryheap items)).1.length = items.length ∧
        is_empty (drainMin (insert_binaryheap items)).2 = true ∧
        List.Sorted (· ≤ ·) (drainMin (insert_binaryheap items)).1) ∧
      ((drainMin (insert_libheap items)).1.length = items.length ∧
        is_empty (drainMin (insert_libheap items)).2 = true ∧
        List.Sorted (· ≤ ·) (drainMin (insert_libheap items)).1) ∧
      ((drainMin (insert_fibonacci_heap_mod items)).1.length = items.length ∧
        is_empty (drainMin (insert_fibonacci_heap_mod items)).2 = true ∧
        List.Sorted (· ≤ ·) (drainMin (insert_fibonacci_heap_mod items)).1) ∧
      ((drainMin (insert_fibheap items)).1.length = items.length ∧
        is_empty (drainMin (insert_fibheap items)).2 = true ∧
        List.Sorted (· ≤ ·) (drainMin (insert_fibheap items)).1) ∧
      ((drainMin (insert_heapy items)).1.length = items.length ∧
        is_empty (drainMin (insert_heapy items)).2 = true ∧
        List.Sorted (· ≤ ·) (drainMin (insert_heapy items)).1) ∧
      ((drainMax (insert_bhpq items)).1.length = items.length ∧
        is_empty (drainMax (insert_bhpq items)).2 = true ∧
        List.Sorted (· ≥ ·) (drainMax (insert_bhpq items)).1) := by
  intro items hnd
  refine ⟨?_, ?_, ?_, ?_, ?_, ?_, ?_, ?_, ?_⟩
  · rw [insert_heapdict_eq hnd]; exact minDrain_contract items
  · rw [insert_heapq_eq]; exact minDrain_contract items
  · rw [insert_pyheapq_eq]; exact minDrain_contract items
  · rw [insert_binaryheap_eq]; exact minDrain_contract items
  · rw [insert_libheap_eq]; exact minDrain_contract items
  · rw [insert_fibonacci_heap_mod_eq]; exact minDrain_contract items
  · rw [insert_fibheap_eq]; exact minDrain_contract items
  · rw [insert_heapy_eq]; exact minDrain_contract items
  · rw [insert_bhpq_eq]; exact maxDrain_contract items

/-- Witness for C1: concrete distinct items. -/
theorem C1_adapter_drain_contract_witness :
    ([2, 0, 1] : List Nat).Nodup ∧
      (drainMin (insert_heapdict [2, 0, 1])).1.length = ([2, 0, 1] : List Nat).length :=
  ⟨by decide, (C1_adapter_drain_contract [2, 0, 1] (by decide)).1.1⟩

/-- C1 (counterexample to the claim as stated): bhpq is registered in
TESTS with prefer=max, so on the pairwise-distinct workload `[0, 1]`
its drain sequence is `[1, 0]`, which is not non-decreasing. -/
theorem C1_counterexample_bhpq_descending_drain :
    ([0, 1] : List Nat).Nodup ∧ (drainMax (insert_bhpq [0, 1])).1 = [1, 0] ∧
      ¬ List.Sorted (· ≤ ·) (drainMax (insert_bhpq [0, 1])).1 := by
  decide

/-- C2: every removal runner builds and populates a fresh heap outside
the timed interval and times only the drain-to-empty loop: for every
repetition count, workload, and per-operation costs, the returned total
is the number of repetitions times the drain-only cost (one extract per
heap element), with no dependence on the insertion cost. -/
theorem C2_removal_runners_time_only_the_drain :
    ∀ (insCost extCost loops : Nat) (items : List Nat),
      bench_remove_heapdict insCost extCost loops items
          = loops * (extCost * (insert_heapdict items).length) ∧
      bench_remove_heapq insCost extCost loops items
          = loops * (extCost * (insert_heapq items).length) ∧
      bench_remove_pyheapq insCost extCost loops items
          = loops * (extCost * (insert_pyheapq items).length) ∧
      bench_remove_binaryheap insCost extCost loops items
          = loops * (extCost * (insert_binaryheap items).length) ∧
      bench_remove_libheap insCost extCost loops items
          = loops * (extCost * (insert_libheap items).length) ∧
      bench_remove_fibonacci_heap_mod insCost extCost loops items
          = loops * (extCost * (insert_fibonacci_heap_mod items).length) ∧
      bench_remove_fibheap insCost extCost loops items
          = loops * (extCost * (insert_fibheap items).length) ∧
      bench_remove_heapy insCost extCost loops items
          = loops * (extCost * (insert_heapy items).length) ∧
      bench_remove_bhpq insCost extCost loops items
          = loops * (extCost * (insert_bhpq items).length) := by
  intro insCost extCost loops items
  refine ⟨?_, ?_, ?_, ?_, ?_, ?_, ?_, ?_, ?_⟩
  · simpa using benchCore_eq insert_heapdict drainMinClocked insCost extCost items
      (fun h c => drainMinClocked_eq extCost h c) loops 0 0
  · simpa using benchCore_eq insert_heapq drainMinClocked insCost extCost items
      (fun h c => drainMinClocked_eq extCost h c) loops 0 0
  · simpa using benchCore_eq insert_pyheapq drainMinClocked insCost extCost items
      (fun h c => drainMinClocked_eq extCost h c) loops 0 0
  · simpa using benchCore_eq insert_binaryheap drainMinClocked insCost extCost items
      (fun h c => drainMinClocked_eq extCost h c) loops 0 0
  · simpa using benchCore_eq insert_libheap drainMinClocked insCost extCost items
      (fun h c => drainMinClocked_eq extCost h c) loops 0 0
  · simpa using benchCore_eq insert_fibonacci_heap_mod drainMinClocked insCost extCost items
      (fun h c => drainMinClocked_eq extCost h c) loops 0 0
  · simpa using benchCore_eq insert_fibheap drainMinClocked insCost extCost items
      (fun h c => drainMinClocked_eq extCost h c) loops 0 0
  · simpa using benchCore_eq insert_heapy drainMinClocked insCost extCost items
      (fun h c => drainMinClocked_eq extCost h c) loops 0 0
  · simpa using benchCore_eq insert_bhpq drainMaxClocked insCost extCost items
      (fun h c => drainMaxClocked_eq extCost h c) loops 0 0

/-- C3: the code declares inner_loops=10 to the reporting collaborator
but each timed region drains the workload exactly once.  With unit
extract cost and zero insert cost, one repetition on a one-item
workload reports a total of 1 time unit, whereas the protocol the spec
describes (the drain performed 10 times inside the timed unit) reports
10; the returned totals differ, so dividing by loops times inner_loops
understates the per-drain cost tenfold. -/
theorem C3_inner_loops_not_folded_into_timed_unit :
    bench_remove_heapq 0 1 1 [5] = 1 ∧
      bench_remove_heapq_specProtocol 0 1 10 1 [5] = 10 ∧
      bench_remove_heapq 0 1 1 [5] ≠ bench_remove_heapq_specProtocol 0 1 10 1 [5] := by
  decide

/-- C4 (amended): for both sizes used by the suite (N=1000 and
N=1000000), each workload has exactly N items, but only the ascending
workload has value multiset (0, ..., N-1); the descending workload is
built from `range(N, 0, -1)` and so has value multiset (1, ..., N), and
the random workload, being a shuffle of the descending list, has that
same multiset (1, ..., N). -/
theorem C4_workload_sizes_and_multisets :
    ∀ r1 r2 : List Nat, r1.Perm (descRange 1000) → r2.Perm (descRange 1000000) →
      ((List.range 1000).length = 1000 ∧ (List.range 1000).Perm (List.range 1000)) ∧
      ((descRange 1000).length = 1000 ∧
        (descRange 1000).Perm ((List.range 1000).map (· + 1))) ∧
      (r1.length = 1000 ∧ r1.Perm ((List.range 1000).map (· + 1))) ∧
      ((List.range 1000000).length = 1000000 ∧
        (List.range 1000000).Perm (List.range 1000000)) ∧
      ((descRange 1000000).length = 1000000 ∧
        (descRange 1000000).Perm ((List.range 1000000).map (· + 1))) ∧
      (r2.length = 1000000 ∧ r2.Perm ((List.range 1000000).map (· + 1))) := by
  intro r1 r2 h1 h2
  refine ⟨⟨List.length_range 1000, List.Perm.refl _⟩,
          ⟨descRange_length 1000, descRange_perm_map_range 1000⟩,
          ⟨?_, h1.trans (descRange_perm_map_range 1000)⟩,
          ⟨List.length_range 1000000, List.Perm.refl _⟩,
          ⟨descRange_length 1000000, descRange_perm_map_range 1000000⟩,
          ⟨?_, h2.trans (descRange_perm_map_range 1000000)⟩⟩
  · rw [h1.length_eq, descRange_length]
  · rw [h2.length_eq, descRange_length]

/-- Witness for C4: the identity shuffle outcome. -/
theorem C4_workload_sizes_and_multisets_witness :
    (descRange 1000).Perm (descRange 1000) ∧ (descRange 1000).length = 1000 :=
  ⟨List.Perm.refl _,
    (C4_workload_sizes_and_multisets (descRange 1000) (descRange 1000000)
      (List.Perm.refl _) (List.Perm.refl _)).2.2.1.1⟩

/-- C4 (counterexample to the claim as stated): the descending workload
of size 1000 is not a rearrangement of the values 0..999. -/
theorem C4_counterexample_descending_multiset :
    ¬ (descRange 1000).Perm (List.range 1000) :=
  descRange_not_perm_range (by omega)

/-- C5 (amended): the random workload for a size is a permutation of
the descending workload for that size (same multiset 1..N, different
arrangement only), and is never a permutation of the ascending
workload (multiset 0..N-1). -/
theorem C5_random_is_permutation_of_descending :
    ∀ r1 r2 : List Nat, r1.Perm (descRange 1000) → r2.Perm (descRange 1000000) →
      (r1.Perm ((List.range 1000).map (· + 1)) ∧ ¬ r1.Perm (List.range 1000)) ∧
      (r2.Perm ((List.range 1000000).map (· + 1)) ∧ ¬ r2.Perm (List.range 1000000)) := by
  intro r1 r2 h1 h2
  refine ⟨⟨h1.trans (descRange_perm_map_range 1000), ?_⟩,
          ⟨h2.trans (descRange_perm_map_range 1000000), ?_⟩⟩
  · intro hc
    exact descRange_not_perm_range (n := 1000) (by omega) (h1.symm.trans hc)
  · intro hc
    exact descRange_not_perm_range (n := 1000000) (by omega) (h2.symm.trans hc)

/-- Witness for C5: the identity shuffle outcome at size 1000. -/
theorem C5_random_is_permutation_of_descending_witness :
    (descRange 1000).Perm (descRange 1000) ∧
      (descRange 1000).Perm ((List.range 1000).map (· + 1)) :=
  ⟨List.Perm.refl _,
    (C5_random_is_permutation_of_descending (descRange 1000) (descRange 1000000)
      (List.Perm.refl _) (List.Perm.refl _)).1.1⟩

/-- C5 (counterexample to the claim as stated): a legitimate shuffle
outcome of the size-1000000 random workload (the identity arrangement)
is not a permutation of the ascending workload of that size. -/
theorem C5_counterexample_random_not_perm_of_ascending :
    ¬ (descRange 1000000).Perm (List.range 1000000) :=
  descRange_not_perm_range (by omega)

/-- C6: within one suite execution the random arrangement for a given
size comes from the single shuffle outcome for that size and is reused
unmodified: every random-order case registered for that size carries
exactly that arrangement, so any two adapters receive the identical
item sequence. -/
theorem C6_random_arrangement_shared_across_adapters :
    ∀ (hb : Bool) (r1 r2 : List Nat),
      (∀ c ∈ randCases1K hb r1, c.wl = r1) ∧
      (∀ c ∈ randCases1M hb r2, c.wl = r2) := by
  intro hb r1 r2
  constructor
  · intro c hc
    rcases List.mem_map.mp hc with ⟨t, _, rfl⟩
    rfl
  · intro c hc
    rcases List.mem_map.mp hc with ⟨t, _, rfl⟩
    rfl

/-- Witness for C6: the heapdict random case at N=1K carries the
shuffle arrangement it was registered with. -/
theorem C6_random_arrangement_shared_across_adapters_witness :
    (⟨"heapdict[] random order, N=1K", [7, 3], none⟩ : BenchCase) ∈
        randCases1K true [7, 3] ∧
      (⟨"heapdict[] random order, N=1K", [7, 3], none⟩ : BenchCase).wl = [7, 3] :=
  ⟨by decide,
    (C6_random_arrangement_shared_across_adapters true [7, 3] []).1 _ (by decide)⟩

/-- Environment in which the heapdict module fails to load (for
example, the dependency is absent) and everything else loads fine. -/
def envHeapdictLoadFail : AdapterKind → ImportOutcome
  | .heapdict => .loadFail
  | _ => .ok

/-- Environment in which loading bhpq raises SyntaxError and every
other heap library loads fine. -/
def envBhpqParseFail : AdapterKind → ImportOutcome
  | .bhpq => .parseFail
  | _ => .ok

/-- C7 (amended): only the bhpq import is guarded, and the guard
catches only SyntaxError.  When the eight unconditional imports load
cleanly: a SyntaxError from bhpq leaves the suite complete with the
eight-adapter TESTS table; a clean bhpq load gives the nine-adapter
table; any other bhpq load failure aborts the suite.  The eight other
adapters are unaffected by the exclusion: the nine-adapter table is the
eight-adapter table with the bhpq entry appended. -/
theorem C7_only_bhpq_guarded_and_only_for_syntax_errors :
    ∀ env : AdapterKind → ImportOutcome,
      (∀ k ∈ requiredImports, env k = .ok) →
      (env .bhpq = .parseFail → moduleInit env = .ok (TESTS false)) ∧
      (env .bhpq = .ok → moduleInit env = .ok (TESTS true)) ∧
      (env .bhpq = .loadFail → moduleInit env = .error .bhpq) ∧
      (TESTS true).map HBTest.nameRemove
        = (TESTS false).map HBTest.nameRemove ++ ["bhpq.pop()"] := by
  intro env hall
  have hff : firstFailure requiredImports env = none :=
    firstFailure_eq_none requiredImports hall
  refine ⟨?_, ?_, ?_, by decide⟩
  · intro hb
    simp [moduleInit, hff, hb]
  · intro hb
    simp [moduleInit, hff, hb]
  · intro hb
    simp [moduleInit, hff, hb]

/-- Witness for C7: the environment where bhpq raises SyntaxError. -/
theorem C7_only_bhpq_guarded_and_only_for_syntax_errors_witness :
    (∀ k ∈ requiredImports, envBhpqParseFail k = .ok) ∧
      (envBhpqParseFail .bhpq = .parseFail →
        moduleInit envBhpqParseFail = .ok (TESTS false)) :=
  ⟨by decide,
    (C7_only_bhpq_guarded_and_only_for_syntax_errors envBhpqParseFail (by decide)).1⟩

/-- C7 (counterexample to the claim as stated): a load failure of the
heapdict adapter (an unguarded import) aborts the suite instead of
excluding that adapter from the case matrix. -/
theorem C7_counterexample_unguarded_import_fatal :
    moduleInit envHeapdictLoadFail = .error .heapdict := by
  rfl

/-- C8 (amended): the removal runners perform no validation of
extraction order or drain count: whenever an adapter drain sequence is
not non-decreasing, the runner still returns the accumulated elapsed
time computed from the drain, rather than surfacing a failure (only a
native exception from the underlying library would abort a case). -/
theorem C8_misbehaving_drain_still_returns_elapsed_time :
    ∀ (insCost extCost loops : Nat) (items : List Nat),
      ¬ List.Sorted (· ≤ ·) (drainMax (insert_bhpq items)).1 →
      bench_remove_bhpq insCost extCost loops items
        = loops * (extCost * (insert_bhpq items).length) := by
  intro insCost extCost loops items _
  simpa using benchCore_eq insert_bhpq drainMaxClocked insCost extCost items
    (fun h c => drainMaxClocked_eq extCost h c) loops 0 0

/-- Witness for C8: on the workload `[0, 1]` the bhpq drain is
`[1, 0]`, not non-decreasing, and the runner returns an elapsed time. -/
theorem C8_misbehaving_drain_still_returns_elapsed_time_witness :
    ¬ List.Sorted (· ≤ ·) (drainMax (insert_bhpq [0, 1])).1 ∧
      bench_remove_bhpq 2 1 1 [0, 1] = 1 * (1 * (insert_bhpq [0, 1]).length) :=
  ⟨by decide,
    C8_misbehaving_drain_still_returns_elapsed_time 2 1 1 [0, 1] (by decide)⟩

/-- C8 (counterexample to the claim as stated): on the workload
`[0, 1, 2]` the bhpq case drains `[2, 1, 0]`, which is not
non-decreasing, and yet the runner returns the elapsed time 3 (at unit
extract cost) instead of surfacing a fatal failure. -/
theorem C8_counterexample_wrong_order_still_reports_time :
    (drainMax (insert_bhpq [0, 1, 2])).1 = [2, 1, 0] ∧
      ¬ List.Sorted (· ≤ ·) (drainMax (insert_bhpq [0, 1, 2])).1 ∧
      bench_remove_bhpq 0 1 1 [0, 1, 2] = 3 := by
  decide

/-- C9 (amended): every case is registered under a deterministic name
built from the TESTS entry labels — insertion cases as
`<insert-label> <order-phrase>, N=<size>` and removal cases as
`<remove-label>, N=<size>` — so insertion names carry an order phrase
and the size, but removal names carry no order pattern at all, and the
ascending and descending phrasing differs between the sizes
("ascending"/"descending" at N=1K, "ascending order"/"descending
order" at N=1M). -/
theorem C9_case_naming_scheme :
    ∀ (hb : Bool) (r1 r2 : List Nat),
      (ascCases1K hb).map BenchCase.name
          = (TESTS hb).map (fun t => t.nameInsert ++ " ascending, N=1K") ∧
      (descCases1K hb).map BenchCase.name
          = (TESTS hb).map (fun t => t.nameInsert ++ " descending, N=1K") ∧
      (randCases1K hb r1).map BenchCase.name
          = (TESTS hb).map (fun t => t.nameInsert ++ " random order, N=1K") ∧
      (ascCases1M hb).map BenchCase.name
          = (TESTS hb).map (fun t => t.nameInsert ++ " ascending order, N=1M") ∧
      (descCases1M hb).map BenchCase.name
          = (TESTS hb).map (fun t => t.nameInsert ++ " descending order, N=1M") ∧
      (randCases1M hb r2).map BenchCase.name
          = (TESTS hb).map (fun t => t.nameInsert ++ " random order, N=1M") ∧
      (removeCases1K hb).map BenchCase.name
          = (TESTS hb).map (fun t => t.nameRemove ++ ", N=1K") ∧
      (removeCases1M hb).map BenchCase.name
          = (TESTS hb).map (fun t => t.nameRemove ++ ", N=1M") ∧
      ((removeCases1K hb).map BenchCase.name).all
          (fun s => hasSub s "N=1K" && !(mentionsOrder s)) = true ∧
      ((removeCases1M hb).map BenchCase.name).all
          (fun s => hasSub s "N=1M" && !(mentionsOrder s)) = true := by
  intro hb r1 r2
  refine ⟨?_, ?_, ?_, ?_, ?_, ?_, ?_, ?_, ?_, ?_⟩
  · rw [ascCases1K, List.map_map]; rfl
  · rw [descCases1K, List.map_map]; rfl
  · rw [randCases1K, List.map_map]; rfl
  · rw [ascCases1M, List.map_map]; rfl
  · rw [descCases1M, List.map_map]; rfl
  · rw [randCases1M, List.map_map]; rfl
  · rw [removeCases1K, List.map_map]; rfl
  · rw [removeCases1M, List.map_map]; rfl
  · cases hb <;> decide
  · cases hb <;> decide

set_option maxRecDepth 100000 in
/-- C9 (counterexample to the claim as stated): the first removal case
registered by the driver is named "heapdict.popitem(), N=1K", which
mentions none of the three order patterns, so not every case name
includes the order pattern. -/
theorem C9_counterexample_removal_name_has_no_order :
    (⟨"heapdict.popitem(), N=1K", List.range 1000, some 10⟩ : BenchCase) ∈
        removeCases1K true ∧
      mentionsOrder "heapdict.popitem(), N=1K" = false := by
  decide

/-- C10: every adapter insert function and every removal runner leaves
the caller items list unchanged: rendering the two list objects in
scope as explicit state, each function body only reads the items
object, so the items component of the state after the call equals the
one before it, for every starting state and repetition count. -/
theorem C10_inserts_and_runners_leave_items_unchanged :
    ∀ (s : PyState) (loops : Nat),
      (insert_heapdict_st s).itemsObj = s.itemsObj ∧
      (insert_heapq_st s).itemsObj = s.itemsObj ∧
      (insert_pyheapq_st s).itemsObj = s.itemsObj ∧
      (insert_binaryheap_st s).itemsObj = s.itemsObj ∧
      (insert_libheap_st s).itemsObj = s.itemsObj ∧
      (insert_fibonacci_heap_mod_st s).itemsObj = s.itemsObj ∧
      (insert_fibheap_st s).itemsObj = s.itemsObj ∧
      (insert_heapy_st s).itemsObj = s.itemsObj ∧
      (insert_bhpq_st s).itemsObj = s.itemsObj ∧
      (bench_remove_heapdict_st loops s).itemsObj = s.itemsObj ∧
      (bench_remove_heapq_st loops s).itemsObj = s.itemsObj ∧
      (bench_remove_pyheapq_st loops s).itemsObj = s.itemsObj ∧
      (bench_remove_binaryheap_st loops s).itemsObj = s.itemsObj ∧
      (bench_remove_libheap_st loops s).itemsObj = s.itemsObj ∧
      (bench_remove_fibonacci_heap_mod_st loops s).itemsObj = s.itemsObj ∧
      (bench_remove_fibheap_st loops s).itemsObj = s.itemsObj ∧
      (bench_remove_heapy_st loops s).itemsObj = s.itemsObj ∧
      (bench_remove_bhpq_st loops s).itemsObj = s.itemsObj := by
  intro s loops
  refine ⟨insertSt_dict_itemsObj s, insertSt_bag_itemsObj s, insertSt_bag_itemsObj s,
    insertSt_bag_itemsObj s, insertSt_bag_itemsObj s, insertSt_bag_itemsObj s,
    insertSt_bag_itemsObj s, insertSt_bag_itemsObj s, insertSt_bag_itemsObj s,
    ?_, ?_, ?_, ?_, ?_, ?_, ?_, ?_, ?_⟩
  · exact benchStCore_itemsObj insert_heapdict_st drainMinSt
      insertSt_dict_itemsObj drainMinSt_itemsObj loops s
  · exact benchStCore_itemsObj insert_heapq_st drainMinSt
      insertSt_bag_itemsObj drainMinSt_itemsObj loops s
  · exact benchStCore_itemsObj insert_pyheapq_st drainMinSt
      insertSt_bag_itemsObj drainMinSt_itemsObj loops s
  · exact benchStCore_itemsObj insert_binaryheap_st drainMinSt
      insertSt_bag_itemsObj drainMinSt_itemsObj loops s
  · exact benchStCore_itemsObj insert_libheap_st drainMinSt
      insertSt_bag_itemsObj drainMinSt_itemsObj loops s
  · exact benchStCore_itemsObj insert_fibonacci_heap_mod_st drainMinSt
      insertSt_bag_itemsObj drainMinSt_itemsObj loops s
  · exact benchStCore_itemsObj insert_fibheap_st drainMinSt
      insertSt_bag_itemsObj drainMinSt_itemsObj loops s
  · exact benchStCore_itemsObj insert_heapy_st drainMinSt
      insertSt_bag_itemsObj drainMinSt_itemsObj loops s
  · exact benchStCore_itemsObj insert_bhpq_st drainMaxSt
      insertSt_bag_itemsObj drainMaxSt_itemsObj loops s

end Heapbench
